import Mathlib

/-!
# The `kvstore` module (`kvstore.go`)

A shallow embedding of the key-value module: its entry and message types, the
message validators, the keeper over the context's byte store, the mutation
handler, and the query router with its get handler.

Conventions of the embedding.

* A Go `string` is a sequence of bytes and `[]byte(s)` copies those bytes, so
  both are lists of `UInt8`; `len` is `List.length`.
* A Go function taking `ctx sdk.Context` is a function `Context → Res α`
  (type `Go α`): it returns a value or panics, and in both cases hands back the
  context with the writes made so far and the log of the calls it made on the
  store and on the query boundary.
* A Go result `(x, err)` is an `Except Error α`; a lone `error` result is an
  `Option Error` (`none` is `nil`).
* The codec, the multistore behind `ctx.KVStore` and `ctx.Query` belong to
  libraries outside the module: the codec is a record of functions carried by
  the keeper, the stores and the query boundary are fields of the context.
-/

namespace Kvstore

/-! ## Go values -/

/-- Go's `[]byte`. -/
abbrev Bytes := List UInt8

/-- Go's `string`: an immutable sequence of bytes. -/
abbrev GoString := List UInt8

/-- A string literal of the source, as its UTF-8 bytes. -/
def lit (s : String) : GoString := s.toUTF8.data.toList

/-- The conversion `[]byte(s)`. -/
def bytesOf (s : GoString) : Bytes := s

/-- Go `error` values built by the module or handed to it by a collaborator. -/
inductive Error where
  /-- The value of `fmt.Errorf(msg)` for a constant message. -/
  | errorf (msg : GoString)
  /-- The registered root error `sdkerrors.ErrUnknownRequest`. -/
  | ErrUnknownRequest
  /-- The value of `sdkerrors.Wrap(err, description)`. -/
  | Wrap (err : Error) (description : GoString)
  /-- An error value produced by the codec or by the query boundary. -/
  | foreign (id : Nat)
  deriving DecidableEq, Repr

/-- Run-time panics of the module. -/
inductive Panic where
  /-- Indexing a slice of length `length` at `index`. -/
  | indexOutOfRange (index length : Nat)
  /-- A `Must…` codec call whose underlying call returned `err`. -/
  | must (err : Error)
  deriving DecidableEq, Repr

/-! ## Data model and messages -/

/-- The stored key-value pair. -/
structure KeyValuePair where
  Key : GoString
  Value : GoString
  deriving DecidableEq, Repr

/-- The mutation message. -/
structure MsgCreateKeyValuePair where
  Key : GoString
  Value : GoString
  deriving DecidableEq, Repr

/-- The query message. -/
structure QueryGetKeyValuePair where
  Key : GoString
  deriving DecidableEq, Repr

/-- The module name. -/
def ModuleName : GoString := lit "kvstore"

def NewMsgCreateKeyValuePair (key value : GoString) : MsgCreateKeyValuePair :=
  { Key := key, Value := value }

def MsgCreateKeyValuePair.Route (_msg : MsgCreateKeyValuePair) : GoString := ModuleName

def MsgCreateKeyValuePair.«Type» (_msg : MsgCreateKeyValuePair) : GoString :=
  lit "create_key_value_pair"

/-- The validator of the mutation message: `nil` unless a field has length zero. -/
def MsgCreateKeyValuePair.ValidateBasic (msg : MsgCreateKeyValuePair) : Option Error :=
  if msg.Key.length == 0 || msg.Value.length == 0 then
    some (.errorf (lit "key and value cannot be empty"))
  else
    none

def NewQueryGetKeyValuePair (key : GoString) : QueryGetKeyValuePair :=
  { Key := key }

def QueryGetKeyValuePair.Route (_query : QueryGetKeyValuePair) : GoString := ModuleName

def QueryGetKeyValuePair.«Type» (_query : QueryGetKeyValuePair) : GoString :=
  lit "get_key_value_pair"

/-- The validator of the query message: `nil` unless the key has length zero. -/
def QueryGetKeyValuePair.ValidateBasic (query : QueryGetKeyValuePair) : Option Error :=
  if query.Key.length == 0 then
    some (.errorf (lit "key cannot be empty"))
  else
    none

/-! ## Collaborators: codec, stores, query boundary -/

/-- The codec calls the module makes (`*codec.Codec`), one field per call and
argument type. Each may fail with an error, as its Go signature allows. -/
structure Codec where
  /-- The call `MarshalBinaryBare` on a key-value pair. -/
  MarshalBinaryBare : KeyValuePair → Except Error Bytes
  /-- The call `UnmarshalBinaryBare` into a key-value pair. -/
  UnmarshalBinaryBare : Bytes → Except Error KeyValuePair
  /-- The call `MarshalJSON` on a query message. -/
  MarshalJSONQuery : QueryGetKeyValuePair → Except Error Bytes
  /-- The call `MarshalJSON` on a key-value pair. -/
  MarshalJSONPair : KeyValuePair → Except Error Bytes

/-- An `sdk.StoreKey`: the capability naming one store of the multistore. -/
abbrev StoreKey := Nat

/-- One byte-oriented store: the value under each raw key, if any. -/
abbrev KVStore := Bytes → Option Bytes

/-- The request `abci.RequestQuery`. -/
structure RequestQuery where
  Data : Bytes
  Path : GoString
  Height : Int
  Prove : Bool
  deriving DecidableEq, Repr

/-- The response `abci.ResponseQuery`, with the fields the module reads. -/
structure ResponseQuery where
  Code : Nat
  Value : Bytes
  Log : GoString
  deriving DecidableEq, Repr

/-- The status code `abci.CodeTypeOK`. -/
def CodeTypeOK : Nat := 0

/-- A call made on a collaborator reached through the context. -/
inductive Access where
  | Has (store : StoreKey) (key : Bytes)
  | Get (store : StoreKey) (key : Bytes)
  | Set (store : StoreKey) (key value : Bytes)
  | Query (req : RequestQuery)
  deriving DecidableEq, Repr

/-- An event of the context's event manager. -/
abbrev Event := GoString

/-- The context `sdk.Context`: the stores, the recorded events, the query
boundary `ctx.Query` (which may read the stores), and the log of calls made. -/
structure Context where
  stores : StoreKey → KVStore
  events : List Event
  Query : (StoreKey → KVStore) → RequestQuery → Except Error ResponseQuery
  accesses : List Access

/-- How a call ends: it returns a value or panics; either way the context is
left as the call made it. -/
inductive Res (α : Type) where
  | returned (a : α) (ctx : Context)
  | panicked (p : Panic) (ctx : Context)

/-- The context a call leaves behind. -/
def Res.ctx {α : Type} : Res α → Context
  | .returned _ c => c
  | .panicked _ c => c

/-- What a call yields, the context left aside. -/
def Res.outcome {α : Type} : Res α → Except Panic α
  | .returned a _ => .ok a
  | .panicked p _ => .error p

/-- Outcomes with decidable parts have decidable equality. -/
instance {ε α : Type} [DecidableEq ε] [DecidableEq α] : DecidableEq (Except ε α)
  | .ok a, .ok b => if h : a = b then isTrue (by rw [h]) else isFalse (fun h2 => h (by cases h2; rfl))
  | .error a, .error b =>
    if h : a = b then isTrue (by rw [h]) else isFalse (fun h2 => h (by cases h2; rfl))
  | .ok _, .error _ => isFalse (fun h => by cases h)
  | .error _, .ok _ => isFalse (fun h => by cases h)

/-- A Go function over a context. -/
def Go (α : Type) : Type := Context → Res α

/-- Run a Go function on a context. -/
def Go.run {α : Type} (m : Go α) (ctx : Context) : Res α := m ctx

/-- Sequencing: a panic ends the computation. -/
def Go.bind {α β : Type} (m : Go α) (f : α → Go β) : Go β := fun ctx =>
  match m ctx with
  | .returned a c => f a c
  | .panicked p c => .panicked p c

instance : Monad Go where
  pure a := fun ctx => .returned a ctx
  bind := Go.bind

/-- Raise a panic. -/
def Go.panic {α : Type} (p : Panic) : Go α := fun ctx => .panicked p ctx

/-- The call `store.Has(key)` on the store `ctx.KVStore(sk)`. -/
def storeHas (sk : StoreKey) (key : Bytes) : Go Bool := fun ctx =>
  .returned (ctx.stores sk key).isSome
    { ctx with accesses := ctx.accesses ++ [.Has sk key] }

/-- The call `store.Get(key)` on the store `ctx.KVStore(sk)`; an absent key
gives the nil slice. -/
def storeGet (sk : StoreKey) (key : Bytes) : Go Bytes := fun ctx =>
  .returned ((ctx.stores sk key).getD [])
    { ctx with accesses := ctx.accesses ++ [.Get sk key] }

/-- The stores after a write of `value` under `key` in the store `sk`. -/
def writeStores (stores : StoreKey → KVStore) (sk : StoreKey) (key value : Bytes) :
    StoreKey → KVStore :=
  fun s => if s = sk then fun k => if k = key then some value else stores s k else stores s

/-- The call `store.Set(key, value)` on the store `ctx.KVStore(sk)`. -/
def storeSet (sk : StoreKey) (key value : Bytes) : Go Unit := fun ctx =>
  .returned ()
    { ctx with
      stores := writeStores ctx.stores sk key value
      accesses := ctx.accesses ++ [.Set sk key value] }

/-- The call `ctx.Query(req)`. -/
def ctxQuery (req : RequestQuery) : Go (Except Error ResponseQuery) := fun ctx =>
  .returned (ctx.Query ctx.stores req)
    { ctx with accesses := ctx.accesses ++ [.Query req] }

/-- The call `ctx.EventManager().Events()`. -/
def ctxEvents : Go (List Event) := fun ctx => .returned ctx.events ctx

/-- A `Must…` codec call: the bytes or value, or a panic with the error. -/
def must {α : Type} (r : Except Error α) : Go α :=
  match r with
  | .ok a => pure a
  | .error err => Go.panic (.must err)

/-- The index expression `xs[i]`. -/
def index (xs : List GoString) (i : Nat) : Go GoString :=
  match xs.get? i with
  | some x => pure x
  | none => Go.panic (.indexOutOfRange i xs.length)

/-! ## The keeper -/

/-- The module keeper. -/
structure Keeper where
  keyValueStoreKey : StoreKey
  cdc : Codec

def NewKeeper (keyValueStoreKey : StoreKey) (cdc : Codec) : Keeper :=
  { keyValueStoreKey := keyValueStoreKey, cdc := cdc }

def Keeper.KeyValueExists (k : Keeper) (key : GoString) : Go Bool :=
  storeHas k.keyValueStoreKey (bytesOf key)

def Keeper.GetKeyValuePair (k : Keeper) (key : GoString) : Go (Except Error KeyValuePair) := do
  let found ← k.KeyValueExists key
  if !found then
    return .error (.errorf (lit "key-value pair not found"))
  else
    let value ← storeGet k.keyValueStoreKey (bytesOf key)
    let keyValuePair ← must (k.cdc.UnmarshalBinaryBare value)
    return .ok keyValuePair

def Keeper.SetKeyValuePair (k : Keeper) (keyValuePair : KeyValuePair) : Go Unit := do
  let bz ← must (k.cdc.MarshalBinaryBare keyValuePair)
  storeSet k.keyValueStoreKey (bytesOf keyValuePair.Key) bz

/-- Modelled from the spec: the keeper method `CreateKeyValuePair`, which the
mutation handler calls and the source does not define. The specification of
the mutation handler says that it constructs an entry from the key and the
value and stores it through the keeper's set operation, with no failure mode of
its own. -/
def Keeper.CreateKeyValuePair (k : Keeper) (key value : GoString) : Go (Option Error) := do
  k.SetKeyValuePair { Key := key, Value := value }
  return none

/-! ## Handlers and the query router -/

/-- The result `sdk.Result`, with the field the handler fills. -/
structure Result where
  Events : List Event
  deriving DecidableEq, Repr

/-- The mutation handler. The keeper method `CreateKeyValuePair` it calls is not
defined in the source, so the handler takes it as its first argument. -/
def handleMsgCreateKeyValuePair
    (CreateKeyValuePair : Keeper → GoString → GoString → Go (Option Error))
    (k : Keeper) (msg : MsgCreateKeyValuePair) : Go (Except Error Result) := do
  match ← CreateKeyValuePair k msg.Key msg.Value with
  | some err => return .error err
  | none =>
    let events ← ctxEvents
    return .ok { Events := events }

/-- The get handler over the keeper; `ModuleCdc` is the module-level codec. -/
def handleQueryGetKeyValuePair (ModuleCdc : Codec) (k : Keeper) (query : QueryGetKeyValuePair) :
    Go (Except Error Bytes) := do
  match ← k.GetKeyValuePair query.Key with
  | .error err => return .error err
  | .ok value =>
    let bz ← must (ModuleCdc.MarshalJSONPair value)
    return .ok bz

def abciQueryWithData (path : GoString) (data : Bytes) : Go (Except Error ResponseQuery) :=
  let req : RequestQuery := { Path := path, Data := data, Height := 0, Prove := false }
  ctxQuery req

def queryGetKeyValuePair (path : List GoString) (_req : RequestQuery) (k : Keeper) :
    Go (Except Error Bytes) := do
  let key ← index path 0
  let query := NewQueryGetKeyValuePair key
  match k.cdc.MarshalJSONQuery query with
  | .error err => return .error err
  | .ok bz =>
    match ← abciQueryWithData (lit "custom/kvstore/get") bz with
    | .error err => return .error err
    | .ok res =>
      if res.Code ≠ CodeTypeOK then
        return .error (.Wrap .ErrUnknownRequest res.Log)
      else
        match k.cdc.UnmarshalBinaryBare res.Value with
        | .error err => return .error err
        | .ok value =>
          let bz ← must (k.cdc.MarshalJSONPair value)
          return .ok bz

def NewQuerier (k : Keeper) (path : List GoString) (req : RequestQuery) :
    Go (Except Error Bytes) := do
  let endpoint ← index path 0
  if endpoint = lit "get" then
    queryGetKeyValuePair (path.drop 1) req k
  else
    return .error (.Wrap .ErrUnknownRequest (lit "unknown kvstore query endpoint"))

/-! ## Scenarios and sample collaborators -/

/-- The error `GetKeyValuePair` returns for a key without an entry. -/
def notFoundError : Error := .errorf (lit "key-value pair not found")

/-- The error the router returns for an endpoint it does not know. -/
def unknownEndpointError : Error :=
  .Wrap .ErrUnknownRequest (lit "unknown kvstore query endpoint")

/-- The codec's binary decoding inverts its binary encoding at the entry `e`. -/
def Codec.RoundTrips (cdc : Codec) (e : KeyValuePair) : Prop :=
  ∃ bz, cdc.MarshalBinaryBare e = .ok bz ∧ cdc.UnmarshalBinaryBare bz = .ok e

/-- The store `sk` of the context holds no entry. -/
def Context.EmptyStore (ctx : Context) (sk : StoreKey) : Prop :=
  ∀ key, ctx.stores sk key = none

/-- The calls `SetKeyValuePair(ctx, e)` for the entries of a list, in order. -/
def setAll (k : Keeper) : List KeyValuePair → Go Unit
  | [] => pure ()
  | e :: es => do
    k.SetKeyValuePair e
    setAll k es

/-- A write of the entry `e`, then the existence check and the read of `key`. -/
def setThenRead (k : Keeper) (e : KeyValuePair) (key : GoString) :
    Go (Bool × Except Error KeyValuePair) := do
  k.SetKeyValuePair e
  let found ← k.KeyValueExists key
  let got ← k.GetKeyValuePair key
  return (found, got)

/-- A write of `e1`, then a write of `e2`, then the read of `key`. -/
def setSetGet (k : Keeper) (e1 e2 : KeyValuePair) (key : GoString) :
    Go (Except Error KeyValuePair) := do
  k.SetKeyValuePair e1
  k.SetKeyValuePair e2
  k.GetKeyValuePair key

/-- The context after the mutation handler has run on `msg`, with the keeper's
`CreateKeyValuePair` as modelled above. -/
def applyMsg (k : Keeper) (msg : MsgCreateKeyValuePair) (ctx : Context) : Context :=
  (handleMsgCreateKeyValuePair Keeper.CreateKeyValuePair k msg ctx).ctx

/-- The request `queryGetKeyValuePair` sends to the query boundary for the
encoded query message `data`. -/
def getRequest (data : Bytes) : RequestQuery :=
  { Path := lit "custom/kvstore/get", Data := data, Height := 0, Prove := false }

/-- The bytes before the first zero byte, and the bytes after it if there is one. -/
def splitAtZero : Bytes → Bytes × Option Bytes
  | [] => ([], none)
  | b :: bs =>
    if b = 0 then ([], some bs)
    else ((b :: (splitAtZero bs).1), (splitAtZero bs).2)

/-- A sample codec for concrete runs. Binary form: the key, a zero byte, the
value (keys holding a zero byte are refused). JSON form: the fields under
their `json` tags, the text taken as it is. -/
def sampleCodec : Codec where
  MarshalBinaryBare e :=
    if (0 : UInt8) ∈ e.Key then .error (.foreign 1) else .ok (e.Key ++ 0 :: e.Value)
  UnmarshalBinaryBare bz :=
    match splitAtZero bz with
    | (key, some value) => .ok { Key := key, Value := value }
    | (_, none) => .error (.foreign 2)
  MarshalJSONQuery q := .ok (lit "\x7b\"key\":\"" ++ q.Key ++ lit "\"\x7d")
  MarshalJSONPair e :=
    .ok (lit "\x7b\"key\":\"" ++ e.Key ++ lit "\",\"value\":\"" ++ e.Value ++ lit "\"\x7d")

/-- A sample keeper: store key 0 and the sample codec. -/
def sampleKeeper : Keeper := NewKeeper 0 sampleCodec

/-- A query boundary that refuses every request with status 1. -/
def refusingBoundary : (StoreKey → KVStore) → RequestQuery → Except Error ResponseQuery :=
  fun _ _ => .ok { Code := 1, Value := [], Log := lit "refused" }

/-- A query boundary that answers every request with status OK and the bytes
stored under `key` in the store `sk`. -/
def lookupBoundary (sk : StoreKey) (key : GoString) :
    (StoreKey → KVStore) → RequestQuery → Except Error ResponseQuery :=
  fun stores _ => .ok { Code := CodeTypeOK, Value := (stores sk (bytesOf key)).getD [], Log := [] }

/-- A context with empty stores, no events and no calls made, over a boundary. -/
def emptyContext
    (boundary : (StoreKey → KVStore) → RequestQuery → Except Error ResponseQuery) : Context :=
  { stores := fun _ _ => none, events := [], Query := boundary, accesses := [] }

/-- A raw query request with no payload. -/
def sampleRequest : RequestQuery := { Data := [], Path := [], Height := 0, Prove := false }

/-- A query boundary that gives every request the same answer. -/
def constantBoundary (answer : Except Error ResponseQuery) :
    (StoreKey → KVStore) → RequestQuery → Except Error ResponseQuery :=
  fun _ _ => answer

/-- A query boundary that answers with status OK and the bytes stored under
`key` in the store `sk` and, when nothing is stored there, reports the keeper's
not-found text as the log of a response with status 1. -/
def reportingBoundary (sk : StoreKey) (key : GoString) :
    (StoreKey → KVStore) → RequestQuery → Except Error ResponseQuery :=
  fun stores _ =>
    match stores sk (bytesOf key) with
    | some bz => .ok { Code := CodeTypeOK, Value := bz, Log := [] }
    | none => .ok { Code := 1, Value := [], Log := lit "key-value pair not found" }

/-- Every value in the keeper's store decodes to an entry whose key is the raw
key it is stored under. -/
def Context.KeysConsistent (ctx : Context) (k : Keeper) : Prop :=
  ∀ (key : GoString) (bz : Bytes), ctx.stores k.keyValueStoreKey (bytesOf key) = some bz →
    ∃ e : KeyValuePair, e.Key = key ∧ k.cdc.UnmarshalBinaryBare bz = .ok e

/-! ## How the keeper's calls run -/

theorem KeyValueExists_run (k : Keeper) (key : GoString) (ctx : Context) :
    k.KeyValueExists key ctx =
      .returned (ctx.stores k.keyValueStoreKey key).isSome
        { ctx with accesses := ctx.accesses ++ [.Has k.keyValueStoreKey key] } := rfl

theorem SetKeyValuePair_run_ok (k : Keeper) (e : KeyValuePair) (ctx : Context) (bz : Bytes)
    (h : k.cdc.MarshalBinaryBare e = .ok bz) :
    k.SetKeyValuePair e ctx =
      .returned ()
        { ctx with
          stores := writeStores ctx.stores k.keyValueStoreKey e.Key bz
          accesses := ctx.accesses ++ [.Set k.keyValueStoreKey e.Key bz] } := by
  simp only [Keeper.SetKeyValuePair, h, must, bind, Go.bind, pure]
  rfl

theorem SetKeyValuePair_run_error (k : Keeper) (e : KeyValuePair) (ctx : Context) (err : Error)
    (h : k.cdc.MarshalBinaryBare e = .error err) :
    k.SetKeyValuePair e ctx = .panicked (.must err) ctx := by
  simp only [Keeper.SetKeyValuePair, h, must, bind, Go.bind, pure]
  rfl

theorem GetKeyValuePair_run_absent (k : Keeper) (key : GoString) (ctx : Context)
    (h : ctx.stores k.keyValueStoreKey key = none) :
    k.GetKeyValuePair key ctx =
      .returned (.error notFoundError)
        { ctx with accesses := ctx.accesses ++ [.Has k.keyValueStoreKey key] } := by
  simp [Keeper.GetKeyValuePair, KeyValueExists_run, bind, Go.bind, h, pure, notFoundError]

theorem GetKeyValuePair_run_present (k : Keeper) (key : GoString) (ctx : Context) (bz : Bytes)
    (h : ctx.stores k.keyValueStoreKey key = some bz) :
    k.GetKeyValuePair key ctx =
      match k.cdc.UnmarshalBinaryBare bz with
      | .ok e =>
        .returned (.ok e)
          { ctx with
            accesses := ctx.accesses ++
              [.Has k.keyValueStoreKey key, .Get k.keyValueStoreKey key] }
      | .error err =>
        .panicked (.must err)
          { ctx with
            accesses := ctx.accesses ++
              [.Has k.keyValueStoreKey key, .Get k.keyValueStoreKey key] } := by
  cases hd : k.cdc.UnmarshalBinaryBare bz <;>
    simp [Keeper.GetKeyValuePair, KeyValueExists_run, bind, Go.bind, h, pure, storeGet, bytesOf,
      must, hd, Go.panic]

theorem KeyValueExists_outcome (k : Keeper) (key : GoString) (ctx : Context) :
    (k.KeyValueExists key ctx).outcome = .ok (ctx.stores k.keyValueStoreKey key).isSome := rfl

theorem GetKeyValuePair_outcome (k : Keeper) (key : GoString) (ctx : Context) :
    (k.GetKeyValuePair key ctx).outcome =
      match ctx.stores k.keyValueStoreKey key with
      | none => .ok (.error notFoundError)
      | some bz =>
        match k.cdc.UnmarshalBinaryBare bz with
        | .ok e => .ok (.ok e)
        | .error err => .error (.must err) := by
  cases h : ctx.stores k.keyValueStoreKey key with
  | none => rw [GetKeyValuePair_run_absent k key ctx h]; rfl
  | some bz =>
    rw [GetKeyValuePair_run_present k key ctx bz h]
    simp only
    split <;> rfl

theorem writeStores_same (stores : StoreKey → KVStore) (sk : StoreKey) (key value : Bytes) :
    writeStores stores sk key value sk key = some value := by
  simp [writeStores]

theorem writeStores_other_key (stores : StoreKey → KVStore) (sk : StoreKey)
    (key value other : Bytes) (h : other ≠ key) :
    writeStores stores sk key value sk other = stores sk other := by
  simp [writeStores, h]

theorem writeStores_other_store (stores : StoreKey → KVStore) (sk other : StoreKey)
    (key value : Bytes) (h : other ≠ sk) :
    writeStores stores sk key value other = stores other := by
  simp [writeStores, h]

theorem writeStores_twice (stores : StoreKey → KVStore) (sk : StoreKey) (key v1 v2 : Bytes) :
    writeStores (writeStores stores sk key v1) sk key v2 = writeStores stores sk key v2 := by
  funext s k
  by_cases hs : s = sk <;> by_cases hk : k = key <;> simp [writeStores, hs, hk]

/-- A write leaves every other key of the keeper's store as it was, whether it
returns or panics. -/
theorem SetKeyValuePair_other_key (k : Keeper) (e : KeyValuePair) (ctx : Context)
    (key : GoString) (h : key ≠ e.Key) :
    (k.SetKeyValuePair e ctx).ctx.stores k.keyValueStoreKey key =
      ctx.stores k.keyValueStoreKey key := by
  cases hm : k.cdc.MarshalBinaryBare e with
  | error err => rw [SetKeyValuePair_run_error k e ctx err hm]; rfl
  | ok bz =>
    rw [SetKeyValuePair_run_ok k e ctx bz hm]
    exact writeStores_other_key _ _ _ _ _ h

theorem setAll_cons (k : Keeper) (e : KeyValuePair) (es : List KeyValuePair) (ctx : Context) :
    setAll k (e :: es) ctx =
      match k.SetKeyValuePair e ctx with
      | .returned _ c => setAll k es c
      | .panicked p c => .panicked p c := by
  rw [setAll]
  simp only [bind, Go.bind]
  cases k.SetKeyValuePair e ctx <;> rfl

/-- Writes of entries under other keys leave the slot of `key` as it was. -/
theorem setAll_other_key (k : Keeper) (key : GoString) (es : List KeyValuePair) :
    ∀ ctx : Context, (∀ e ∈ es, e.Key ≠ key) →
      (setAll k es ctx).ctx.stores k.keyValueStoreKey key =
        ctx.stores k.keyValueStoreKey key := by
  induction es with
  | nil => intro ctx _; rfl
  | cons e es ih =>
    intro ctx h
    have he : key ≠ e.Key := fun hk => h e (List.mem_cons_self _ _) hk.symm
    have hstep := SetKeyValuePair_other_key k e ctx key he
    rw [setAll_cons]
    cases hr : k.SetKeyValuePair e ctx with
    | returned u c =>
      rw [hr] at hstep
      simp only
      rw [ih c (fun e2 h2 => h e2 (List.mem_cons_of_mem _ h2))]
      exact hstep
    | panicked p c =>
      rw [hr] at hstep
      exact hstep

/-! ## The keeper's contract -/

/-- C1. Read-after-write: on every context, for every key and value at which
the codec's binary decoding inverts its encoding, the write of the entry
followed by the existence check and the read of the same key returns, with the
check true and the read giving exactly the written entry. Non-emptiness of the
key and the value is not needed. -/
theorem read_after_write (k : Keeper) (ctx : Context) (key value : GoString)
    (hcodec : k.cdc.RoundTrips ⟨key, value⟩) :
    (setThenRead k ⟨key, value⟩ key ctx).outcome = .ok (true, .ok ⟨key, value⟩) := by
  obtain ⟨bz, henc, hdec⟩ := hcodec
  have hget := GetKeyValuePair_run_present k key
    { ctx with
      stores := writeStores ctx.stores k.keyValueStoreKey key bz
      accesses := ctx.accesses ++ [.Set k.keyValueStoreKey key bz] ++
        [.Has k.keyValueStoreKey key] } bz (writeStores_same _ _ _ _)
  rw [hdec] at hget
  simp only [setThenRead, bind, Go.bind, SetKeyValuePair_run_ok k ⟨key, value⟩ ctx bz henc,
    KeyValueExists_run, writeStores_same, hget, pure]
  rfl

/-- A concrete run of C1 with the sample codec: key `alpha`, value `beta`. -/
theorem read_after_write_witness :
    (setThenRead sampleKeeper ⟨lit "alpha", lit "beta"⟩ (lit "alpha")
        (emptyContext refusingBoundary)).outcome
      = .ok (true, .ok ⟨lit "alpha", lit "beta"⟩) :=
  read_after_write sampleKeeper (emptyContext refusingBoundary) (lit "alpha") (lit "beta")
    ⟨lit "alpha" ++ 0 :: lit "beta", by decide, by decide⟩

/-- C2. Not found. First part: starting from an empty store, after any list of
writes none of which is for `key`, the existence check of `key` is false and
the read of `key` returns no entry and the not-found error. Second part: on
every context and for every key, the read fails with the not-found error
exactly when the existence check is false. -/
theorem not_found :
    (∀ (k : Keeper) (ctx : Context) (es : List KeyValuePair) (key : GoString),
      ctx.EmptyStore k.keyValueStoreKey → (∀ e ∈ es, e.Key ≠ key) →
        (k.KeyValueExists key (setAll k es ctx).ctx).outcome = .ok false ∧
        (k.GetKeyValuePair key (setAll k es ctx).ctx).outcome = .ok (.error notFoundError)) ∧
    (∀ (k : Keeper) (ctx : Context) (key : GoString),
      (k.GetKeyValuePair key ctx).outcome = .ok (.error notFoundError) ↔
        (k.KeyValueExists key ctx).outcome = .ok false) := by
  constructor
  · intro k ctx es key hempty hnever
    have hslot : (setAll k es ctx).ctx.stores k.keyValueStoreKey key = none := by
      rw [setAll_other_key k key es ctx hnever]
      exact hempty key
    rw [KeyValueExists_outcome, GetKeyValuePair_outcome, hslot]
    exact ⟨rfl, rfl⟩
  · intro k ctx key
    rw [KeyValueExists_outcome, GetKeyValuePair_outcome]
    cases h : ctx.stores k.keyValueStoreKey key with
    | none => simp
    | some bz =>
      simp only
      split <;> simp

/-- A concrete run of C2: after a write of `alpha` on the empty context, the
key `nope` is absent. -/
theorem not_found_witness :
    (emptyContext refusingBoundary).EmptyStore sampleKeeper.keyValueStoreKey ∧
    (∀ e ∈ [(⟨lit "alpha", lit "beta"⟩ : KeyValuePair)], e.Key ≠ lit "nope") ∧
    (sampleKeeper.KeyValueExists (lit "nope")
      (setAll sampleKeeper [⟨lit "alpha", lit "beta"⟩] (emptyContext refusingBoundary)).ctx).outcome
        = .ok false ∧
    (sampleKeeper.GetKeyValuePair (lit "nope")
      (setAll sampleKeeper [⟨lit "alpha", lit "beta"⟩] (emptyContext refusingBoundary)).ctx).outcome
        = .ok (.error notFoundError) :=
  ⟨fun _ => rfl, by decide,
    not_found.1 sampleKeeper (emptyContext refusingBoundary) [⟨lit "alpha", lit "beta"⟩]
      (lit "nope") (fun _ => rfl) (by decide)⟩

/-- C3. Overwrite: on every context, a write of `{key, v1}`, then a write of
`{key, v2}`, then the read of `key` returns `{key, v2}`, the entry of the
second write; the codec is taken to encode the first entry and to round-trip
the second. -/
theorem overwrite (k : Keeper) (ctx : Context) (key v1 v2 : GoString) (bz1 : Bytes)
    (hfirst : k.cdc.MarshalBinaryBare ⟨key, v1⟩ = .ok bz1)
    (hcodec : k.cdc.RoundTrips ⟨key, v2⟩) :
    (setSetGet k ⟨key, v1⟩ ⟨key, v2⟩ key ctx).outcome = .ok (.ok ⟨key, v2⟩) := by
  obtain ⟨bz2, henc, hdec⟩ := hcodec
  simp only [setSetGet, bind, Go.bind, SetKeyValuePair_run_ok k ⟨key, v1⟩ ctx bz1 hfirst,
    SetKeyValuePair_run_ok k ⟨key, v2⟩ _ bz2 henc]
  rw [GetKeyValuePair_outcome]
  simp only [writeStores_same, hdec]

/-- A concrete run of C3 with the sample codec: `alpha` set to `beta`, then to
`gamma`. -/
theorem overwrite_witness :
    (setSetGet sampleKeeper ⟨lit "alpha", lit "beta"⟩ ⟨lit "alpha", lit "gamma"⟩ (lit "alpha")
        (emptyContext refusingBoundary)).outcome
      = .ok (.ok ⟨lit "alpha", lit "gamma"⟩) :=
  overwrite sampleKeeper (emptyContext refusingBoundary) (lit "alpha") (lit "beta") (lit "gamma")
    (lit "alpha" ++ 0 :: lit "beta") (by decide)
    ⟨lit "alpha" ++ 0 :: lit "gamma", by decide, by decide⟩

/-! ## The mutation handler -/

theorem handleMsg_run_ok (k : Keeper) (msg : MsgCreateKeyValuePair) (ctx : Context) (bz : Bytes)
    (h : k.cdc.MarshalBinaryBare ⟨msg.Key, msg.Value⟩ = .ok bz) :
    handleMsgCreateKeyValuePair Keeper.CreateKeyValuePair k msg ctx =
      .returned (.ok { Events := ctx.events })
        { ctx with
          stores := writeStores ctx.stores k.keyValueStoreKey msg.Key bz
          accesses := ctx.accesses ++ [.Set k.keyValueStoreKey msg.Key bz] } := by
  simp only [handleMsgCreateKeyValuePair, Keeper.CreateKeyValuePair, bind, Go.bind,
    SetKeyValuePair_run_ok k ⟨msg.Key, msg.Value⟩ ctx bz h, pure]
  rfl

theorem handleMsg_run_error (k : Keeper) (msg : MsgCreateKeyValuePair) (ctx : Context)
    (err : Error) (h : k.cdc.MarshalBinaryBare ⟨msg.Key, msg.Value⟩ = .error err) :
    handleMsgCreateKeyValuePair Keeper.CreateKeyValuePair k msg ctx =
      .panicked (.must err) ctx := by
  simp only [handleMsgCreateKeyValuePair, Keeper.CreateKeyValuePair, bind, Go.bind,
    SetKeyValuePair_run_error k ⟨msg.Key, msg.Value⟩ ctx err h]

/-- The stores after the handler ran twice are the stores after it ran once. -/
theorem applyMsg_twice_stores (k : Keeper) (msg : MsgCreateKeyValuePair) (ctx : Context) :
    (applyMsg k msg (applyMsg k msg ctx)).stores = (applyMsg k msg ctx).stores := by
  unfold applyMsg
  cases h : k.cdc.MarshalBinaryBare ⟨msg.Key, msg.Value⟩ with
  | error err =>
    rw [handleMsg_run_error k msg ctx err h]
    simp only [Res.ctx]
    rw [handleMsg_run_error k msg ctx err h]
  | ok bz =>
    rw [handleMsg_run_ok k msg ctx bz h]
    simp only [Res.ctx]
    rw [handleMsg_run_ok k msg _ bz h]
    exact writeStores_twice _ _ _ _ _

/-- C4. Idempotence of the mutation handler (with `CreateKeyValuePair` as
modelled from the specification): on every context and for every message, the
context left by applying the message twice has the same stores as the context
left by applying it once, so the existence check and the read of every key
answer the same on both, through any keeper. -/
theorem handler_idempotent (k : Keeper) (msg : MsgCreateKeyValuePair) (ctx : Context) :
    (applyMsg k msg (applyMsg k msg ctx)).stores = (applyMsg k msg ctx).stores ∧
    ∀ (reader : Keeper) (key : GoString),
      (reader.KeyValueExists key (applyMsg k msg (applyMsg k msg ctx))).outcome =
        (reader.KeyValueExists key (applyMsg k msg ctx)).outcome ∧
      (reader.GetKeyValuePair key (applyMsg k msg (applyMsg k msg ctx))).outcome =
        (reader.GetKeyValuePair key (applyMsg k msg ctx)).outcome := by
  have hs := applyMsg_twice_stores k msg ctx
  refine ⟨hs, fun reader key => ?_⟩
  rw [KeyValueExists_outcome, KeyValueExists_outcome, GetKeyValuePair_outcome,
    GetKeyValuePair_outcome, hs]
  exact ⟨rfl, rfl⟩

/-- C5. Postcondition of the mutation handler (with `CreateKeyValuePair` as
modelled from the specification): on every context and for every message
whose entry the codec round-trips, the handler returns a result and no error,
makes one call on the store, the write of the encoded entry `{key, value}`
under `key`; afterwards the read of `key` returns `{key, value}`, every other
key of the store answers the existence check and the read as before, and
every other store is unchanged. -/
theorem handler_postcondition (k : Keeper) (msg : MsgCreateKeyValuePair) (ctx : Context)
    (hcodec : k.cdc.RoundTrips ⟨msg.Key, msg.Value⟩) :
    (handleMsgCreateKeyValuePair Keeper.CreateKeyValuePair k msg ctx).outcome =
      .ok (.ok { Events := ctx.events }) ∧
    (∃ bz, k.cdc.MarshalBinaryBare ⟨msg.Key, msg.Value⟩ = .ok bz ∧
      (applyMsg k msg ctx).accesses = ctx.accesses ++ [.Set k.keyValueStoreKey msg.Key bz]) ∧
    (k.GetKeyValuePair msg.Key (applyMsg k msg ctx)).outcome = .ok (.ok ⟨msg.Key, msg.Value⟩) ∧
    (∀ key : GoString, key ≠ msg.Key →
      (k.KeyValueExists key (applyMsg k msg ctx)).outcome = (k.KeyValueExists key ctx).outcome ∧
      (k.GetKeyValuePair key (applyMsg k msg ctx)).outcome = (k.GetKeyValuePair key ctx).outcome) ∧
    (∀ sk : StoreKey, sk ≠ k.keyValueStoreKey → (applyMsg k msg ctx).stores sk = ctx.stores sk) := by
  obtain ⟨bz, henc, hdec⟩ := hcodec
  have hrun := handleMsg_run_ok k msg ctx bz henc
  refine ⟨?_, ⟨bz, henc, ?_⟩, ?_, ?_, ?_⟩
  · rw [hrun]; rfl
  · unfold applyMsg; rw [hrun]; rfl
  · unfold applyMsg
    rw [hrun, GetKeyValuePair_outcome]
    simp only [Res.ctx, writeStores_same, hdec]
  · intro key hkey
    unfold applyMsg
    rw [hrun, KeyValueExists_outcome, KeyValueExists_outcome, GetKeyValuePair_outcome,
      GetKeyValuePair_outcome]
    simp only [Res.ctx, writeStores_other_key _ _ _ _ _ hkey, and_self]
  · intro sk hsk
    unfold applyMsg
    rw [hrun]
    exact writeStores_other_store _ _ _ _ _ hsk

/-- A concrete run of C5 with the sample codec: the message `alpha`, `beta`
on the empty context. -/
theorem handler_postcondition_witness :
    (sampleKeeper.GetKeyValuePair (lit "alpha")
        (applyMsg sampleKeeper ⟨lit "alpha", lit "beta"⟩ (emptyContext refusingBoundary))).outcome
      = .ok (.ok ⟨lit "alpha", lit "beta"⟩) :=
  (handler_postcondition sampleKeeper ⟨lit "alpha", lit "beta"⟩ (emptyContext refusingBoundary)
    ⟨lit "alpha" ++ 0 :: lit "beta", by decide, by decide⟩).2.2.1

/-! ## Message validation -/

theorem validateBasic_msg_error_iff (msg : MsgCreateKeyValuePair) :
    msg.ValidateBasic = some (.errorf (lit "key and value cannot be empty")) ↔
      (msg.Key = [] ∨ msg.Value = []) := by
  obtain ⟨key, value⟩ := msg
  cases key <;> cases value <;> simp [MsgCreateKeyValuePair.ValidateBasic]

theorem validateBasic_query_error_iff (query : QueryGetKeyValuePair) :
    query.ValidateBasic = some (.errorf (lit "key cannot be empty")) ↔ query.Key = [] := by
  obtain ⟨key⟩ := query
  cases key <;> simp [QueryGetKeyValuePair.ValidateBasic]

/-- C6. Validation of the mutation message: `ValidateBasic` returns an error,
the one with the message `key and value cannot be empty`, if and only if the
key is empty or the value is empty; it returns `nil` exactly when both fields
are non-empty. -/
theorem msg_validate_basic (msg : MsgCreateKeyValuePair) :
    (msg.ValidateBasic = some (.errorf (lit "key and value cannot be empty")) ↔
      (msg.Key = [] ∨ msg.Value = [])) ∧
    (msg.ValidateBasic.isSome = true ↔ (msg.Key = [] ∨ msg.Value = [])) ∧
    (msg.ValidateBasic = none ↔ (msg.Key ≠ [] ∧ msg.Value ≠ [])) := by
  obtain ⟨key, value⟩ := msg
  cases key <;> cases value <;> simp [MsgCreateKeyValuePair.ValidateBasic]

/-- C7. Validation of the query message: `ValidateBasic` returns an error, the
one with the message `key cannot be empty`, if and only if the key is empty,
and `nil` otherwise. -/
theorem query_validate_basic (query : QueryGetKeyValuePair) :
    (query.ValidateBasic = some (.errorf (lit "key cannot be empty")) ↔ query.Key = []) ∧
    (query.ValidateBasic.isSome = true ↔ query.Key = []) ∧
    (query.ValidateBasic = none ↔ query.Key ≠ []) := by
  obtain ⟨key⟩ := query
  cases key <;> simp [QueryGetKeyValuePair.ValidateBasic]

/-! ## Handlers and validation -/

theorem handleQuery_run_absent (ModuleCdc : Codec) (k : Keeper) (query : QueryGetKeyValuePair)
    (ctx : Context) (h : ctx.stores k.keyValueStoreKey query.Key = none) :
    handleQueryGetKeyValuePair ModuleCdc k query ctx =
      .returned (.error notFoundError)
        { ctx with accesses := ctx.accesses ++ [.Has k.keyValueStoreKey query.Key] } := by
  simp only [handleQueryGetKeyValuePair, bind, Go.bind,
    GetKeyValuePair_run_absent k query.Key ctx h, pure]

theorem handleQuery_accesses (ModuleCdc : Codec) (k : Keeper) (query : QueryGetKeyValuePair)
    (ctx : Context) :
    ∃ more, (handleQueryGetKeyValuePair ModuleCdc k query ctx).ctx.accesses =
      ctx.accesses ++ .Has k.keyValueStoreKey query.Key :: more := by
  cases h : ctx.stores k.keyValueStoreKey query.Key with
  | none => exact ⟨[], by rw [handleQuery_run_absent ModuleCdc k query ctx h]; rfl⟩
  | some bz =>
    refine ⟨[.Get k.keyValueStoreKey query.Key], ?_⟩
    simp only [handleQueryGetKeyValuePair, bind, Go.bind,
      GetKeyValuePair_run_present k query.Key ctx bz h]
    cases k.cdc.UnmarshalBinaryBare bz with
    | error err => rfl
    | ok e =>
      simp only [must]
      cases ModuleCdc.MarshalJSONPair e <;> rfl

theorem handleMsg_ctx (create : Keeper → GoString → GoString → Go (Option Error))
    (k : Keeper) (msg : MsgCreateKeyValuePair) (ctx : Context) :
    (handleMsgCreateKeyValuePair create k msg ctx).ctx = (create k msg.Key msg.Value ctx).ctx := by
  simp only [handleMsgCreateKeyValuePair, bind, Go.bind]
  cases create k msg.Key msg.Value ctx with
  | panicked p c => rfl
  | returned r c => cases r <;> rfl

/-- C8, as stated, fails: on the empty context the get handler given a query
with the empty key, which `ValidateBasic` rejects, does not fail with the
validation error. It asks the store for the key (one `Has` call) and returns
the not-found error. -/
theorem empty_key_query_reaches_store :
    QueryGetKeyValuePair.ValidateBasic ⟨[]⟩ = some (.errorf (lit "key cannot be empty")) ∧
    (handleQueryGetKeyValuePair sampleCodec sampleKeeper ⟨[]⟩
        (emptyContext refusingBoundary)).outcome = .ok (.error notFoundError) ∧
    notFoundError ≠ .errorf (lit "key cannot be empty") ∧
    (handleQueryGetKeyValuePair sampleCodec sampleKeeper ⟨[]⟩
        (emptyContext refusingBoundary)).ctx.accesses = [.Has 0 []] := by
  decide

/-- C8, amended. Messages with an empty key (or, for the mutation, an empty
value) are rejected by `ValidateBasic`, a function of the message alone. The
handlers do not run it. The get handler, for every key, the empty one
included, first asks the keeper's store for the key, and when the store holds
nothing under it returns the not-found error after that one call. The
mutation handler leaves the context exactly as its call of
`CreateKeyValuePair` on the unchecked key and value leaves it. -/
theorem validation_outside_handlers :
    (∀ msg : MsgCreateKeyValuePair, (msg.Key = [] ∨ msg.Value = []) →
      msg.ValidateBasic = some (.errorf (lit "key and value cannot be empty"))) ∧
    (∀ query : QueryGetKeyValuePair, query.Key = [] →
      query.ValidateBasic = some (.errorf (lit "key cannot be empty"))) ∧
    (∀ (ModuleCdc : Codec) (k : Keeper) (query : QueryGetKeyValuePair) (ctx : Context),
      ∃ more, (handleQueryGetKeyValuePair ModuleCdc k query ctx).ctx.accesses =
        ctx.accesses ++ .Has k.keyValueStoreKey query.Key :: more) ∧
    (∀ (ModuleCdc : Codec) (k : Keeper) (query : QueryGetKeyValuePair) (ctx : Context),
      ctx.stores k.keyValueStoreKey query.Key = none →
        handleQueryGetKeyValuePair ModuleCdc k query ctx =
          .returned (.error notFoundError)
            { ctx with accesses := ctx.accesses ++ [.Has k.keyValueStoreKey query.Key] }) ∧
    (∀ (create : Keeper → GoString → GoString → Go (Option Error)) (k : Keeper)
        (msg : MsgCreateKeyValuePair) (ctx : Context),
      (handleMsgCreateKeyValuePair create k msg ctx).ctx =
        (create k msg.Key msg.Value ctx).ctx) :=
  ⟨fun msg h => (validateBasic_msg_error_iff msg).2 h,
    fun query h => (validateBasic_query_error_iff query).2 h,
    handleQuery_accesses, handleQuery_run_absent, handleMsg_ctx⟩

/-- A concrete run of the amended C8: the empty-key query on the empty
context. -/
theorem validation_outside_handlers_witness :
    QueryGetKeyValuePair.ValidateBasic ⟨[]⟩ = some (.errorf (lit "key cannot be empty")) ∧
    handleQueryGetKeyValuePair sampleCodec sampleKeeper ⟨[]⟩ (emptyContext refusingBoundary) =
      .returned (.error notFoundError)
        { emptyContext refusingBoundary with accesses := [] ++ [.Has 0 []] } :=
  ⟨validation_outside_handlers.2.1 ⟨[]⟩ rfl,
    validation_outside_handlers.2.2.2.1 sampleCodec sampleKeeper ⟨[]⟩
      (emptyContext refusingBoundary) rfl⟩

/-! ## The query router -/

theorem NewQuerier_run_unknown (k : Keeper) (endpoint : GoString) (more : List GoString)
    (req : RequestQuery) (ctx : Context) (h : endpoint ≠ lit "get") :
    NewQuerier k (endpoint :: more) req ctx = .returned (.error unknownEndpointError) ctx := by
  simp only [NewQuerier, index, List.get?, bind, Go.bind, pure, h, if_false]
  rfl

theorem NewQuerier_run_get (k : Keeper) (more : List GoString) (req : RequestQuery)
    (ctx : Context) :
    NewQuerier k (lit "get" :: more) req ctx = queryGetKeyValuePair more req k ctx := by
  simp only [NewQuerier, index, List.get?, bind, Go.bind, pure, if_true, List.drop_succ_cons,
    List.drop_zero]

/-- The get handler when the boundary answers with status OK and a payload that
decodes to an entry the codec can write as JSON. -/
theorem queryGet_run_ok (k : Keeper) (key : GoString) (more : List GoString)
    (req : RequestQuery) (ctx : Context) (q js : Bytes) (res : ResponseQuery)
    (e : KeyValuePair)
    (hq : k.cdc.MarshalJSONQuery ⟨key⟩ = .ok q)
    (hres : ctx.Query ctx.stores (getRequest q) = .ok res)
    (hcode : res.Code = CodeTypeOK)
    (hdec : k.cdc.UnmarshalBinaryBare res.Value = .ok e)
    (hjs : k.cdc.MarshalJSONPair e = .ok js) :
    queryGetKeyValuePair (key :: more) req k ctx =
      .returned (.ok js) { ctx with accesses := ctx.accesses ++ [.Query (getRequest q)] } := by
  have hb : abciQueryWithData (lit "custom/kvstore/get") q ctx =
      .returned (.ok res) { ctx with accesses := ctx.accesses ++ [.Query (getRequest q)] } := by
    simp only [abciQueryWithData, ctxQuery]
    rw [← hres]
    rfl
  simp only [queryGetKeyValuePair, index, List.get?, bind, Go.bind, pure,
    NewQueryGetKeyValuePair, hq, hb, hcode, ne_eq, not_true_eq_false, if_false, hdec, hjs, must]

/-- C9, as stated, fails: the error the router returns for an unknown endpoint
is the same value for the paths `missing` and `other`, the root error
`ErrUnknownRequest` wrapped with a fixed description, so it does not carry the
unmatched path. -/
theorem router_error_without_path :
    (NewQuerier sampleKeeper [lit "missing"] sampleRequest (emptyContext refusingBoundary)).outcome
      = .ok (.error (.Wrap .ErrUnknownRequest (lit "unknown kvstore query endpoint"))) ∧
    (NewQuerier sampleKeeper [lit "other"] sampleRequest (emptyContext refusingBoundary)).outcome
      = .ok (.error (.Wrap .ErrUnknownRequest (lit "unknown kvstore query endpoint"))) ∧
    [lit "missing"] ≠ [lit "other"] := by
  decide

/-- C9, amended. For every non-empty path whose first segment is not `get`, on
every context and for every payload, the router returns no bytes and the error
`ErrUnknownRequest` wrapped with the fixed description
`unknown kvstore query endpoint`, whatever the path; it leaves the context as
it was, with no call on the store or on the query boundary, so the get handler
is not run. -/
theorem unknown_endpoint (k : Keeper) (endpoint : GoString) (more : List GoString)
    (req : RequestQuery) (ctx : Context) (h : endpoint ≠ lit "get") :
    NewQuerier k (endpoint :: more) req ctx =
      .returned (.error (.Wrap .ErrUnknownRequest (lit "unknown kvstore query endpoint"))) ctx :=
  NewQuerier_run_unknown k endpoint more req ctx h

/-- A concrete run of the amended C9: the path `missing`. -/
theorem unknown_endpoint_witness :
    lit "missing" ≠ lit "get" ∧
    NewQuerier sampleKeeper [lit "missing"] sampleRequest (emptyContext refusingBoundary) =
      .returned (.error (.Wrap .ErrUnknownRequest (lit "unknown kvstore query endpoint")))
        (emptyContext refusingBoundary) :=
  ⟨by decide,
    unknown_endpoint sampleKeeper (lit "missing") [] sampleRequest (emptyContext refusingBoundary)
      (by decide)⟩

/-- C10, as stated, fails: the router's get path does not read the store, it
returns what the query boundary of the context answers. On a context whose
boundary refuses every request, after `alpha` was set to `beta` (the existence
check is true), the query `get/alpha` fails with `ErrUnknownRequest` wrapped
with the boundary's log. -/
theorem set_key_query_refused :
    (sampleKeeper.KeyValueExists (lit "alpha")
      (sampleKeeper.SetKeyValuePair ⟨lit "alpha", lit "beta"⟩
        (emptyContext refusingBoundary)).ctx).outcome = .ok true ∧
    (NewQuerier sampleKeeper [lit "get", lit "alpha"] sampleRequest
      (sampleKeeper.SetKeyValuePair ⟨lit "alpha", lit "beta"⟩
        (emptyContext refusingBoundary)).ctx).outcome
      = .ok (.error (.Wrap .ErrUnknownRequest (lit "refused"))) := by
  decide

/-- The router on a path `get`, `key` after a write of `{key, value}`, when the
boundary answers with status OK and the bytes stored under `key`. -/
theorem NewQuerier_after_set (k : Keeper) (ctx : Context) (key value : GoString)
    (more : List GoString) (req : RequestQuery) (q js : Bytes) (log : GoString)
    (hcodec : k.cdc.RoundTrips ⟨key, value⟩)
    (hq : k.cdc.MarshalJSONQuery ⟨key⟩ = .ok q)
    (hjs : k.cdc.MarshalJSONPair ⟨key, value⟩ = .ok js)
    (hboundary :
      (k.SetKeyValuePair ⟨key, value⟩ ctx).ctx.Query
          (k.SetKeyValuePair ⟨key, value⟩ ctx).ctx.stores (getRequest q) =
        .ok { Code := CodeTypeOK
              Value := ((k.SetKeyValuePair ⟨key, value⟩ ctx).ctx.stores
                k.keyValueStoreKey (bytesOf key)).getD []
              Log := log }) :
    (NewQuerier k (lit "get" :: key :: more) req (k.SetKeyValuePair ⟨key, value⟩ ctx).ctx).outcome
      = .ok (.ok js) := by
  obtain ⟨bz, henc, hdec⟩ := hcodec
  have hstored : ((k.SetKeyValuePair ⟨key, value⟩ ctx).ctx.stores
      k.keyValueStoreKey (bytesOf key)).getD [] = bz := by
    rw [SetKeyValuePair_run_ok k ⟨key, value⟩ ctx bz henc]
    simp only [Res.ctx, bytesOf, writeStores_same, Option.getD_some]
  rw [hstored] at hboundary
  rw [NewQuerier_run_get,
    queryGet_run_ok k key more req _ q js _ ⟨key, value⟩ hq hboundary rfl hdec hjs]
  rfl

/-- C10, amended. First part: for every key and value at which the codec
round-trips, on the context left by the write of `{key, value}`, if the query
boundary answers the request the get handler sends (path `custom/kvstore/get`,
data the JSON form of the query message for `key`) with status OK and the bytes
stored under `key`, then the router applied to a path `get`, `key` (and any
further segments) returns the codec's JSON form of `{key, value}` and no
error. Second part: with the sample codec, which writes the two fields under
their `json` tags, and a boundary answering with the bytes stored under
`alpha`, after `alpha` was set to `beta` the query `get/alpha` returns the
bytes `{"key":"alpha","value":"beta"}`. -/
theorem routed_get :
    (∀ (k : Keeper) (ctx : Context) (key value : GoString) (more : List GoString)
        (req : RequestQuery) (q js : Bytes) (log : GoString),
      k.cdc.RoundTrips ⟨key, value⟩ →
      k.cdc.MarshalJSONQuery ⟨key⟩ = .ok q →
      k.cdc.MarshalJSONPair ⟨key, value⟩ = .ok js →
      (k.SetKeyValuePair ⟨key, value⟩ ctx).ctx.Query
          (k.SetKeyValuePair ⟨key, value⟩ ctx).ctx.stores (getRequest q) =
        .ok { Code := CodeTypeOK
              Value := ((k.SetKeyValuePair ⟨key, value⟩ ctx).ctx.stores
                k.keyValueStoreKey (bytesOf key)).getD []
              Log := log } →
      (NewQuerier k (lit "get" :: key :: more) req
          (k.SetKeyValuePair ⟨key, value⟩ ctx).ctx).outcome = .ok (.ok js)) ∧
    (NewQuerier sampleKeeper [lit "get", lit "alpha"] sampleRequest
      (sampleKeeper.SetKeyValuePair ⟨lit "alpha", lit "beta"⟩
        (emptyContext (lookupBoundary 0 (lit "alpha")))).ctx).outcome
      = .ok (.ok (lit "\x7b\"key\":\"alpha\",\"value\":\"beta\"\x7d")) :=
  ⟨NewQuerier_after_set, by decide⟩

/-- A concrete run of the amended C10: the key `k1` set to `v1` on a context
whose boundary answers with the bytes stored under `k1`, then the query
`get/k1/x`. -/
theorem routed_get_witness :
    (NewQuerier sampleKeeper [lit "get", lit "k1", lit "x"] sampleRequest
      (sampleKeeper.SetKeyValuePair ⟨lit "k1", lit "v1"⟩
        (emptyContext (lookupBoundary 0 (lit "k1")))).ctx).outcome
      = .ok (.ok (lit "\x7b\"key\":\"k1\",\"value\":\"v1\"\x7d")) :=
  routed_get.1 sampleKeeper (emptyContext (lookupBoundary 0 (lit "k1"))) (lit "k1")
    (lit "v1") [lit "x"] sampleRequest (lit "\x7b\"key\":\"k1\"\x7d")
    (lit "\x7b\"key\":\"k1\",\"value\":\"v1\"\x7d") []
    ⟨lit "k1" ++ 0 :: lit "v1", by decide, by decide⟩ (by decide) (by decide) (by rfl)

/-! ## How the get handler of the router runs -/

theorem abciQueryWithData_run (q : Bytes) (ctx : Context) :
    abciQueryWithData (lit "custom/kvstore/get") q ctx =
      .returned (ctx.Query ctx.stores (getRequest q))
        { ctx with accesses := ctx.accesses ++ [.Query (getRequest q)] } := rfl

theorem queryGet_run_empty (req : RequestQuery) (k : Keeper) (ctx : Context) :
    queryGetKeyValuePair [] req k ctx = .panicked (.indexOutOfRange 0 0) ctx := rfl

theorem queryGet_run_marshal_error (k : Keeper) (key : GoString) (more : List GoString)
    (req : RequestQuery) (ctx : Context) (err : Error)
    (hq : k.cdc.MarshalJSONQuery ⟨key⟩ = .error err) :
    queryGetKeyValuePair (key :: more) req k ctx = .returned (.error err) ctx := by
  simp only [queryGetKeyValuePair, index, List.get?, bind, Go.bind, pure,
    NewQueryGetKeyValuePair, hq]

theorem queryGet_run_boundary_error (k : Keeper) (key : GoString) (more : List GoString)
    (req : RequestQuery) (ctx : Context) (q : Bytes) (err : Error)
    (hq : k.cdc.MarshalJSONQuery ⟨key⟩ = .ok q)
    (hres : ctx.Query ctx.stores (getRequest q) = .error err) :
    queryGetKeyValuePair (key :: more) req k ctx =
      .returned (.error err) { ctx with accesses := ctx.accesses ++ [.Query (getRequest q)] } := by
  simp only [queryGetKeyValuePair, index, List.get?, bind, Go.bind, pure,
    NewQueryGetKeyValuePair, hq, abciQueryWithData_run, hres]

theorem queryGet_run_not_ok (k : Keeper) (key : GoString) (more : List GoString)
    (req : RequestQuery) (ctx : Context) (q : Bytes) (res : ResponseQuery)
    (hq : k.cdc.MarshalJSONQuery ⟨key⟩ = .ok q)
    (hres : ctx.Query ctx.stores (getRequest q) = .ok res)
    (hcode : res.Code ≠ CodeTypeOK) :
    queryGetKeyValuePair (key :: more) req k ctx =
      .returned (.error (.Wrap .ErrUnknownRequest res.Log))
        { ctx with accesses := ctx.accesses ++ [.Query (getRequest q)] } := by
  simp only [queryGetKeyValuePair, index, List.get?, bind, Go.bind, pure,
    NewQueryGetKeyValuePair, hq, abciQueryWithData_run, hres, ne_eq, hcode, not_false_eq_true,
    if_true]

theorem queryGet_run_decode_error (k : Keeper) (key : GoString) (more : List GoString)
    (req : RequestQuery) (ctx : Context) (q : Bytes) (res : ResponseQuery) (err : Error)
    (hq : k.cdc.MarshalJSONQuery ⟨key⟩ = .ok q)
    (hres : ctx.Query ctx.stores (getRequest q) = .ok res)
    (hcode : res.Code = CodeTypeOK)
    (hdec : k.cdc.UnmarshalBinaryBare res.Value = .error err) :
    queryGetKeyValuePair (key :: more) req k ctx =
      .returned (.error err) { ctx with accesses := ctx.accesses ++ [.Query (getRequest q)] } := by
  simp only [queryGetKeyValuePair, index, List.get?, bind, Go.bind, pure,
    NewQueryGetKeyValuePair, hq, abciQueryWithData_run, hres, hcode, ne_eq, not_true_eq_false,
    if_false, hdec]

theorem queryGet_run_json_error (k : Keeper) (key : GoString) (more : List GoString)
    (req : RequestQuery) (ctx : Context) (q : Bytes) (res : ResponseQuery)
    (e : KeyValuePair) (err : Error)
    (hq : k.cdc.MarshalJSONQuery ⟨key⟩ = .ok q)
    (hres : ctx.Query ctx.stores (getRequest q) = .ok res)
    (hcode : res.Code = CodeTypeOK)
    (hdec : k.cdc.UnmarshalBinaryBare res.Value = .ok e)
    (hjs : k.cdc.MarshalJSONPair e = .error err) :
    queryGetKeyValuePair (key :: more) req k ctx =
      .panicked (.must err) { ctx with accesses := ctx.accesses ++ [.Query (getRequest q)] } := by
  simp only [queryGetKeyValuePair, index, List.get?, bind, Go.bind, pure,
    NewQueryGetKeyValuePair, hq, abciQueryWithData_run, hres, hcode, ne_eq, not_true_eq_false,
    if_false, hdec, hjs, must, Go.panic]

/-! ## Errors through the query chain -/

/-- C11, as stated, fails: the router's get path does not ask the keeper. On
the empty context, whose store has no entry for `nope`, with a boundary that
reports a missing key as the log of a non-OK response, the query `get/nope`
returns `ErrUnknownRequest` wrapped with that log and not the keeper's
not-found error. -/
theorem absent_key_masked_as_unknown_request :
    (sampleKeeper.KeyValueExists (lit "nope")
      (emptyContext (reportingBoundary 0 (lit "nope")))).outcome = .ok false ∧
    (NewQuerier sampleKeeper [lit "get", lit "nope"] sampleRequest
      (emptyContext (reportingBoundary 0 (lit "nope")))).outcome
      = .ok (.error (.Wrap .ErrUnknownRequest (lit "key-value pair not found"))) ∧
    Error.Wrap .ErrUnknownRequest (lit "key-value pair not found") ≠ notFoundError := by
  decide

/-- C11, amended. First part: the get handler over the keeper, for a key with
no entry in the keeper's store, returns the keeper's not-found error as it is.
Second part: the router applied to a path `get`, `key` returns unchanged any
error the query boundary returns for the request it sends, so it fails with the
not-found error when the boundary returns that error. -/
theorem missing_key_query :
    (∀ (ModuleCdc : Codec) (k : Keeper) (query : QueryGetKeyValuePair) (ctx : Context),
      ctx.stores k.keyValueStoreKey (bytesOf query.Key) = none →
        (handleQueryGetKeyValuePair ModuleCdc k query ctx).outcome =
          .ok (.error notFoundError)) ∧
    (∀ (k : Keeper) (ctx : Context) (key : GoString) (more : List GoString)
        (req : RequestQuery) (q : Bytes) (err : Error),
      k.cdc.MarshalJSONQuery ⟨key⟩ = .ok q →
      ctx.Query ctx.stores (getRequest q) = .error err →
        (NewQuerier k (lit "get" :: key :: more) req ctx).outcome = .ok (.error err)) := by
  constructor
  · intro ModuleCdc k query ctx h
    rw [handleQuery_run_absent ModuleCdc k query ctx h]
    rfl
  · intro k ctx key more req q err hq hres
    rw [NewQuerier_run_get, queryGet_run_boundary_error k key more req ctx q err hq hres]
    rfl

/-- A concrete run of the amended C11: a boundary that returns the not-found
error, and the query `get/nope` on the empty context. -/
theorem missing_key_query_witness :
    (NewQuerier sampleKeeper [lit "get", lit "nope"] sampleRequest
      (emptyContext (constantBoundary (.error notFoundError)))).outcome
      = .ok (.error notFoundError) :=
  missing_key_query.2 sampleKeeper (emptyContext (constantBoundary (.error notFoundError)))
    (lit "nope") [] sampleRequest (lit "\x7b\"key\":\"nope\"\x7d") notFoundError
    (by decide) (by rfl)

/-- C12. Non-OK status: for every key, further segments and payload, when the
query message is encoded and the boundary answers the request with a response
whose status is not OK, the get handler returns no bytes and the error
`ErrUnknownRequest` wrapped with the response's log. When the status is OK,
every error the handler returns is the error of the codec's binary decoding of
the payload, so the wrapping branch is not taken. -/
theorem non_ok_status (k : Keeper) (ctx : Context) (key : GoString) (more : List GoString)
    (req : RequestQuery) (q : Bytes) (res : ResponseQuery)
    (hq : k.cdc.MarshalJSONQuery ⟨key⟩ = .ok q)
    (hres : ctx.Query ctx.stores (getRequest q) = .ok res) :
    (res.Code ≠ CodeTypeOK →
      (queryGetKeyValuePair (key :: more) req k ctx).outcome =
        .ok (.error (.Wrap .ErrUnknownRequest res.Log))) ∧
    (res.Code = CodeTypeOK →
      ∀ err, (queryGetKeyValuePair (key :: more) req k ctx).outcome = .ok (.error err) →
        k.cdc.UnmarshalBinaryBare res.Value = .error err) := by
  constructor
  · intro hcode
    rw [queryGet_run_not_ok k key more req ctx q res hq hres hcode]
    rfl
  · intro hcode err hout
    cases hdec : k.cdc.UnmarshalBinaryBare res.Value with
    | error err2 =>
      rw [queryGet_run_decode_error k key more req ctx q res err2 hq hres hcode hdec] at hout
      simp only [Res.outcome, Except.ok.injEq, Except.error.injEq] at hout
      rw [hout]
    | ok e =>
      cases hjs : k.cdc.MarshalJSONPair e with
      | error err2 =>
        rw [queryGet_run_json_error k key more req ctx q res e err2 hq hres hcode hdec hjs]
          at hout
        simp [Res.outcome] at hout
      | ok js =>
        rw [queryGet_run_ok k key more req ctx q js res e hq hres hcode hdec hjs] at hout
        simp [Res.outcome] at hout

/-- A concrete run of C12: a boundary that refuses with status 1 and the log
`refused`. -/
theorem non_ok_status_witness :
    (queryGetKeyValuePair [lit "alpha"] sampleRequest sampleKeeper
      (emptyContext refusingBoundary)).outcome
      = .ok (.error (.Wrap .ErrUnknownRequest (lit "refused"))) :=
  (non_ok_status sampleKeeper (emptyContext refusingBoundary) (lit "alpha") [] sampleRequest
    (lit "\x7b\"key\":\"alpha\"\x7d") { Code := 1, Value := [], Log := lit "refused" }
    (by decide) (by rfl)).1 (by decide)

/-- C13, as stated, fails: with a boundary that answers with status OK and a
payload the codec does not decode, the query `get/alpha` returns the codec's
error as an ordinary error value and does not panic; the keeper's read of the
same bytes from the store does panic. -/
theorem undecodable_payload_returned :
    sampleCodec.UnmarshalBinaryBare [1] = .error (.foreign 2) ∧
    (NewQuerier sampleKeeper [lit "get", lit "alpha"] sampleRequest
      (emptyContext (constantBoundary (.ok { Code := CodeTypeOK, Value := [1], Log := [] })))).outcome
      = .ok (.error (.foreign 2)) ∧
    (sampleKeeper.GetKeyValuePair (lit "alpha")
      { emptyContext refusingBoundary with
        stores := writeStores (fun _ _ => none) 0 (lit "alpha") [1] }).outcome
      = .error (.must (.foreign 2)) := by
  decide

/-- C13, amended. In the get handler of the router, when the boundary's OK
response carries a payload the codec does not decode, the handler returns the
codec's error as an ordinary error value, after its one call on the boundary.
The abort is that of the keeper's read alone: `GetKeyValuePair` panics when
the bytes stored under the key do not decode. -/
theorem decode_failure :
    (∀ (k : Keeper) (ctx : Context) (key : GoString) (more : List GoString)
        (req : RequestQuery) (q : Bytes) (res : ResponseQuery) (err : Error),
      k.cdc.MarshalJSONQuery ⟨key⟩ = .ok q →
      ctx.Query ctx.stores (getRequest q) = .ok res →
      res.Code = CodeTypeOK →
      k.cdc.UnmarshalBinaryBare res.Value = .error err →
        queryGetKeyValuePair (key :: more) req k ctx =
          .returned (.error err)
            { ctx with accesses := ctx.accesses ++ [.Query (getRequest q)] }) ∧
    (∀ (k : Keeper) (ctx : Context) (key : GoString) (bz : Bytes) (err : Error),
      ctx.stores k.keyValueStoreKey (bytesOf key) = some bz →
      k.cdc.UnmarshalBinaryBare bz = .error err →
        (k.GetKeyValuePair key ctx).outcome = .error (.must err)) := by
  constructor
  · intro k ctx key more req q res err hq hres hcode hdec
    exact queryGet_run_decode_error k key more req ctx q res err hq hres hcode hdec
  · intro k ctx key bz err hstored hdec
    rw [GetKeyValuePair_outcome]
    simp only [bytesOf] at hstored
    simp only [hstored, hdec]

/-- A concrete run of the amended C13: the payload `[1]`, which the sample
codec does not decode. -/
theorem decode_failure_witness :
    (queryGetKeyValuePair [lit "alpha"] sampleRequest sampleKeeper
      (emptyContext (constantBoundary
        (.ok { Code := CodeTypeOK, Value := [1], Log := [] })))).outcome
      = .ok (.error (.foreign 2)) :=
  congrArg Res.outcome
    (decode_failure.1 sampleKeeper
      (emptyContext (constantBoundary (.ok { Code := CodeTypeOK, Value := [1], Log := [] })))
      (lit "alpha") [] sampleRequest (lit "\x7b\"key\":\"alpha\"\x7d")
      { Code := CodeTypeOK, Value := [1], Log := [] } (.foreign 2)
      (by decide) (by rfl) (by rfl) (by decide))

/-! ## Routing and type tags -/

/-- C14. The routing and type tags are constant: every mutation message has
route `kvstore` and type `create_key_value_pair`, and every query message has
route `kvstore` and type `get_key_value_pair`, whatever their fields. -/
theorem route_and_type_tags :
    (∀ msg : MsgCreateKeyValuePair,
      msg.Route = lit "kvstore" ∧ msg.«Type» = lit "create_key_value_pair") ∧
    (∀ query : QueryGetKeyValuePair,
      query.Route = lit "kvstore" ∧ query.«Type» = lit "get_key_value_pair") :=
  ⟨fun _ => ⟨rfl, rfl⟩, fun _ => ⟨rfl, rfl⟩⟩

/-! ## Storage: round trip, frame, reads, key invariant -/

/-- A write changes no slot but the one of the entry's key in the keeper's
store, whether it returns or panics. -/
theorem SetKeyValuePair_stores_frame (k : Keeper) (e : KeyValuePair) (ctx : Context)
    (sk : StoreKey) (key : GoString) (h : sk ≠ k.keyValueStoreKey ∨ key ≠ e.Key) :
    (k.SetKeyValuePair e ctx).ctx.stores sk (bytesOf key) = ctx.stores sk (bytesOf key) := by
  cases hm : k.cdc.MarshalBinaryBare e with
  | error err => rw [SetKeyValuePair_run_error k e ctx err hm]; rfl
  | ok bz =>
    rw [SetKeyValuePair_run_ok k e ctx bz hm]
    by_cases hsk : sk = k.keyValueStoreKey
    · subst hsk
      exact writeStores_other_key _ _ _ _ _ (h.resolve_left (fun hne => hne rfl))
    · exact congrFun (writeStores_other_store ctx.stores k.keyValueStoreKey sk e.Key bz hsk)
        (bytesOf key)

/-- C16. No cross-key coupling: on every context, for every entry and every
key other than the entry's, the write of the entry, whether it returns or
panics, leaves the existence check and the read of that key with the same
answer as before; in the stores only the slot of the entry's key in the
keeper's store can differ. -/
theorem set_frame (k : Keeper) (ctx : Context) (e : KeyValuePair) (key : GoString)
    (hkey : key ≠ e.Key) :
    (k.KeyValueExists key (k.SetKeyValuePair e ctx).ctx).outcome =
      (k.KeyValueExists key ctx).outcome ∧
    (k.GetKeyValuePair key (k.SetKeyValuePair e ctx).ctx).outcome =
      (k.GetKeyValuePair key ctx).outcome ∧
    (∀ (sk : StoreKey) (other : GoString), (sk ≠ k.keyValueStoreKey ∨ other ≠ e.Key) →
      (k.SetKeyValuePair e ctx).ctx.stores sk (bytesOf other) = ctx.stores sk (bytesOf other)) := by
  have hslot := SetKeyValuePair_other_key k e ctx key hkey
  refine ⟨?_, ?_, fun sk other h => SetKeyValuePair_stores_frame k e ctx sk other h⟩
  · rw [KeyValueExists_outcome, KeyValueExists_outcome, hslot]
  · rw [GetKeyValuePair_outcome, GetKeyValuePair_outcome, hslot]

/-- A concrete run of C16: `alpha` is set to `beta`, then `gamma` is written;
the read of `alpha` is as before. -/
theorem set_frame_witness :
    (sampleKeeper.GetKeyValuePair (lit "alpha")
      (sampleKeeper.SetKeyValuePair ⟨lit "gamma", lit "delta"⟩
        (sampleKeeper.SetKeyValuePair ⟨lit "alpha", lit "beta"⟩
          (emptyContext refusingBoundary)).ctx).ctx).outcome =
    (sampleKeeper.GetKeyValuePair (lit "alpha")
      (sampleKeeper.SetKeyValuePair ⟨lit "alpha", lit "beta"⟩
        (emptyContext refusingBoundary)).ctx).outcome :=
  (set_frame sampleKeeper
    (sampleKeeper.SetKeyValuePair ⟨lit "alpha", lit "beta"⟩ (emptyContext refusingBoundary)).ctx
    ⟨lit "gamma", lit "delta"⟩ (lit "alpha") (by decide)).2.1

theorem KeyValueExists_stores (k : Keeper) (key : GoString) (ctx : Context) :
    (k.KeyValueExists key ctx).ctx.stores = ctx.stores := rfl

theorem GetKeyValuePair_stores (k : Keeper) (key : GoString) (ctx : Context) :
    (k.GetKeyValuePair key ctx).ctx.stores = ctx.stores := by
  cases h : ctx.stores k.keyValueStoreKey key with
  | none => rw [GetKeyValuePair_run_absent k key ctx h]; rfl
  | some bz =>
    rw [GetKeyValuePair_run_present k key ctx bz h]
    cases k.cdc.UnmarshalBinaryBare bz <;> rfl

/-- C17. Reads are free of side effects: on every context and for every key,
the existence check and the read, whether the read returns an entry, returns
the not-found error or panics, leave the stores, the events and the query
boundary of the context as they were; so the same read made again gives the
same answer. -/
theorem reads_without_effect (k : Keeper) (ctx : Context) (key : GoString) :
    (k.KeyValueExists key ctx).ctx.stores = ctx.stores ∧
    (k.KeyValueExists key ctx).ctx.events = ctx.events ∧
    (k.KeyValueExists key ctx).ctx.Query = ctx.Query ∧
    (k.GetKeyValuePair key ctx).ctx.stores = ctx.stores ∧
    (k.GetKeyValuePair key ctx).ctx.events = ctx.events ∧
    (k.GetKeyValuePair key ctx).ctx.Query = ctx.Query ∧
    (k.KeyValueExists key (k.KeyValueExists key ctx).ctx).outcome =
      (k.KeyValueExists key ctx).outcome ∧
    (k.GetKeyValuePair key (k.GetKeyValuePair key ctx).ctx).outcome =
      (k.GetKeyValuePair key ctx).outcome ∧
    (k.GetKeyValuePair key (k.KeyValueExists key ctx).ctx).outcome =
      (k.GetKeyValuePair key ctx).outcome ∧
    (k.KeyValueExists key (k.GetKeyValuePair key ctx).ctx).outcome =
      (k.KeyValueExists key ctx).outcome := by
  have hget : (k.GetKeyValuePair key ctx).ctx.events = ctx.events ∧
      (k.GetKeyValuePair key ctx).ctx.Query = ctx.Query := by
    cases h : ctx.stores k.keyValueStoreKey key with
    | none => rw [GetKeyValuePair_run_absent k key ctx h]; exact ⟨rfl, rfl⟩
    | some bz =>
      rw [GetKeyValuePair_run_present k key ctx bz h]
      cases k.cdc.UnmarshalBinaryBare bz <;> exact ⟨rfl, rfl⟩
  refine ⟨rfl, rfl, rfl, GetKeyValuePair_stores k key ctx, hget.1, hget.2, rfl, ?_, ?_, ?_⟩
  · rw [GetKeyValuePair_outcome, GetKeyValuePair_outcome, GetKeyValuePair_stores]
  · rw [GetKeyValuePair_outcome, GetKeyValuePair_outcome, KeyValueExists_stores]
  · rw [KeyValueExists_outcome, KeyValueExists_outcome, GetKeyValuePair_stores]

/-- The shapes a run of the router's get handler on a non-empty path can have:
without a call when the query message is not encoded, and otherwise after the
one call on the boundary, returning or panicking in a `Must` call. -/
theorem queryGet_cons_shape (k : Keeper) (key : GoString) (more : List GoString)
    (req : RequestQuery) (ctx : Context) :
    (∃ err, k.cdc.MarshalJSONQuery ⟨key⟩ = .error err ∧
      queryGetKeyValuePair (key :: more) req k ctx = .returned (.error err) ctx) ∨
    (∃ q, k.cdc.MarshalJSONQuery ⟨key⟩ = .ok q ∧
      ((∃ r, queryGetKeyValuePair (key :: more) req k ctx =
          .returned r { ctx with accesses := ctx.accesses ++ [.Query (getRequest q)] }) ∨
       (∃ err, queryGetKeyValuePair (key :: more) req k ctx =
          .panicked (.must err)
            { ctx with accesses := ctx.accesses ++ [.Query (getRequest q)] }))) := by
  cases hq : k.cdc.MarshalJSONQuery ⟨key⟩ with
  | error err => exact Or.inl ⟨err, rfl, queryGet_run_marshal_error k key more req ctx err hq⟩
  | ok q =>
    refine Or.inr ⟨q, rfl, ?_⟩
    cases hres : ctx.Query ctx.stores (getRequest q) with
    | error err =>
      exact Or.inl ⟨_, queryGet_run_boundary_error k key more req ctx q err hq hres⟩
    | ok res =>
      by_cases hcode : res.Code = CodeTypeOK
      · cases hdec : k.cdc.UnmarshalBinaryBare res.Value with
        | error err =>
          exact Or.inl ⟨_, queryGet_run_decode_error k key more req ctx q res err hq hres hcode hdec⟩
        | ok e =>
          cases hjs : k.cdc.MarshalJSONPair e with
          | error err =>
            exact Or.inr
              ⟨err, queryGet_run_json_error k key more req ctx q res e err hq hres hcode hdec hjs⟩
          | ok js =>
            exact Or.inl ⟨_, queryGet_run_ok k key more req ctx q js res e hq hres hcode hdec hjs⟩
      · exact Or.inl ⟨_, queryGet_run_not_ok k key more req ctx q res hq hres hcode⟩

/-! ## The key of a routed query -/

/-- C18. The key comes from the path, not the payload: on every context and
for every path, the router gives the same run for any two raw payloads; and on
a path `get`, `key` (and any further segments) the only call it makes is the
query of the boundary with the request built from the encoded query message
for `key`, or no call when the codec does not encode that message. -/
theorem key_from_path (k : Keeper) (ctx : Context) (key : GoString) (more : List GoString)
    (req1 req2 : RequestQuery) :
    (∀ path : List GoString, NewQuerier k path req1 ctx = NewQuerier k path req2 ctx) ∧
    (NewQuerier k (lit "get" :: key :: more) req1 ctx).ctx.accesses =
      match k.cdc.MarshalJSONQuery (NewQueryGetKeyValuePair key) with
      | .ok q => ctx.accesses ++ [.Query (getRequest q)]
      | .error _ => ctx.accesses := by
  refine ⟨fun path => rfl, ?_⟩
  rw [NewQuerier_run_get]
  rcases queryGet_cons_shape k key more req1 ctx with ⟨err, hq, hrun⟩ | ⟨q, hq, hrun⟩
  · rw [hrun]
    simp only [NewQueryGetKeyValuePair, hq]
    rfl
  · simp only [NewQueryGetKeyValuePair, hq]
    rcases hrun with ⟨r, hrun⟩ | ⟨err, hrun⟩ <;> rw [hrun] <;> rfl

/-! ## The stored-key invariant -/

theorem KeysConsistent_set (k : Keeper) (e : KeyValuePair) (ctx : Context)
    (hctx : ctx.KeysConsistent k) (hcodec : k.cdc.RoundTrips e) :
    (k.SetKeyValuePair e ctx).outcome = .ok () ∧
    (k.SetKeyValuePair e ctx).ctx.KeysConsistent k := by
  obtain ⟨bz, henc, hdec⟩ := hcodec
  rw [SetKeyValuePair_run_ok k e ctx bz henc]
  refine ⟨rfl, ?_⟩
  intro key b hb
  by_cases hkey : key = e.Key
  · subst hkey
    have hsame : some bz = some b := by
      rw [← hb]
      exact (writeStores_same ctx.stores k.keyValueStoreKey e.Key bz).symm
    cases hsame
    exact ⟨e, rfl, hdec⟩
  · have hold : ctx.stores k.keyValueStoreKey (bytesOf key) = some b := by
      rw [← hb]
      exact (writeStores_other_key ctx.stores k.keyValueStoreKey e.Key bz key hkey).symm
    exact hctx key b hold

theorem KeysConsistent_setAll (k : Keeper) (es : List KeyValuePair) :
    ∀ ctx : Context, ctx.KeysConsistent k → (∀ e ∈ es, k.cdc.RoundTrips e) →
      (setAll k es ctx).outcome = .ok () ∧ (setAll k es ctx).ctx.KeysConsistent k := by
  induction es with
  | nil => intro ctx hctx _; exact ⟨rfl, hctx⟩
  | cons e es ih =>
    intro ctx hctx hcodec
    have hstep := KeysConsistent_set k e ctx hctx (hcodec e (List.mem_cons_self _ _))
    rw [setAll_cons]
    cases hr : k.SetKeyValuePair e ctx with
    | returned u c =>
      rw [hr] at hstep
      exact ih c hstep.2 (fun e2 h2 => hcodec e2 (List.mem_cons_of_mem _ h2))
    | panicked p c =>
      rw [hr] at hstep
      simp [Res.outcome] at hstep

/-- C19. Stored-key consistency: starting from an empty store, any list of
writes of entries the codec round-trips returns and leaves a store in which
every value decodes to an entry whose key is the raw key it is stored under;
so the read of any key then returns the not-found error or an entry whose key
is the key read, and does not panic. -/
theorem stored_key_consistent (k : Keeper) (ctx : Context) (es : List KeyValuePair)
    (hempty : ctx.EmptyStore k.keyValueStoreKey) (hcodec : ∀ e ∈ es, k.cdc.RoundTrips e) :
    (setAll k es ctx).outcome = .ok () ∧
    (setAll k es ctx).ctx.KeysConsistent k ∧
    ∀ key : GoString,
      (k.GetKeyValuePair key (setAll k es ctx).ctx).outcome = .ok (.error notFoundError) ∨
      ∃ e : KeyValuePair,
        (k.GetKeyValuePair key (setAll k es ctx).ctx).outcome = .ok (.ok e) ∧ e.Key = key := by
  have hstart : ctx.KeysConsistent k := by
    intro key bz h
    rw [hempty (bytesOf key)] at h
    cases h
  obtain ⟨hret, hinv⟩ := KeysConsistent_setAll k es ctx hstart hcodec
  refine ⟨hret, hinv, fun key => ?_⟩
  rw [GetKeyValuePair_outcome]
  cases hslot : (setAll k es ctx).ctx.stores k.keyValueStoreKey key with
  | none => exact Or.inl rfl
  | some bz =>
    obtain ⟨e, hk, hdec⟩ := hinv key bz hslot
    refine Or.inr ⟨e, ?_, hk⟩
    simp only [hdec]

/-- A concrete run of C19 with the sample codec: two writes, then the read of
`alpha`. -/
theorem stored_key_consistent_witness :
    ∃ e : KeyValuePair,
      (sampleKeeper.GetKeyValuePair (lit "alpha")
        (setAll sampleKeeper [⟨lit "alpha", lit "beta"⟩, ⟨lit "gamma", lit "delta"⟩]
          (emptyContext refusingBoundary)).ctx).outcome = .ok (.ok e) ∧ e.Key = lit "alpha" :=
  ((stored_key_consistent sampleKeeper (emptyContext refusingBoundary)
      [⟨lit "alpha", lit "beta"⟩, ⟨lit "gamma", lit "delta"⟩] (fun _ => rfl)
      (by
        intro e he
        simp only [List.mem_cons, List.mem_singleton, List.not_mem_nil, or_false] at he
        rcases he with rfl | rfl
        · exact ⟨lit "alpha" ++ 0 :: lit "beta", by decide, by decide⟩
        · exact ⟨lit "gamma" ++ 0 :: lit "delta", by decide, by decide⟩)).2.2
    (lit "alpha")).resolve_left (by decide)

/-! ## Path indexing -/

/-- C20. Path indexing: on the empty path the router panics at its own
`path[0]`, and on the path `get` alone the get handler panics at its `path[0]`
of the remaining segments, both with an index out of range and no error value;
and for every path the router ends in an index panic exactly when the path is
not (non-empty and, if its first segment is `get`, of at least two
segments). -/
theorem path_indexing :
    (∀ (k : Keeper) (req : RequestQuery) (ctx : Context),
      NewQuerier k [] req ctx = .panicked (.indexOutOfRange 0 0) ctx) ∧
    (∀ (k : Keeper) (req : RequestQuery) (ctx : Context),
      NewQuerier k [lit "get"] req ctx = .panicked (.indexOutOfRange 0 0) ctx) ∧
    (∀ (k : Keeper) (path : List GoString) (req : RequestQuery) (ctx : Context),
      (∃ i n, (NewQuerier k path req ctx).outcome = .error (.indexOutOfRange i n)) ↔
        ¬ (path ≠ [] ∧ (path.head? = some (lit "get") → 2 ≤ path.length))) := by
  refine ⟨fun _ _ _ => rfl, fun k req ctx => ?_, fun k path req ctx => ?_⟩
  · rw [NewQuerier_run_get]
    rfl
  · match path with
    | [] => exact ⟨fun _ => by simp, fun _ => ⟨0, 0, rfl⟩⟩
    | endpoint :: more =>
      by_cases hget : endpoint = lit "get"
      · subst hget
        rw [NewQuerier_run_get]
        match more with
        | [] => exact ⟨fun _ => by simp, fun _ => ⟨0, 0, rfl⟩⟩
        | key :: more2 =>
          constructor
          · rintro ⟨i, n, hout⟩
            rcases queryGet_cons_shape k key more2 req ctx with
              ⟨err, _, hrun⟩ | ⟨q, _, ⟨r, hrun⟩ | ⟨err, hrun⟩⟩ <;>
              rw [hrun] at hout <;> simp [Res.outcome] at hout
          · intro h
            exact absurd ⟨by simp, fun _ => by simp⟩ h
      · rw [NewQuerier_run_unknown k endpoint more req ctx hget]
        constructor
        · rintro ⟨i, n, hout⟩
          simp [Res.outcome] at hout
        · intro h
          exact absurd ⟨by simp, fun hh => absurd (by simpa using hh) hget⟩ h

end Kvstore
